import Mathlib

/-!
Verification of the widget code generator.

The development shallowly embeds the two generator pipelines of the
repository:

* the sample-JSON pipeline of `codegen/src/index.ts`
  (`generateTypeFromValue`, `generateKeyTypes`, `extractInterfaces`), and
* the legacy OpenAPI pipeline (`transformSchema`) that emits valibot
  validator expressions.

JavaScript values reachable in these functions are modelled by the
inductive type `Json` (with an explicit `undef` constructor for the
JavaScript value `undefined`); JavaScript exceptions (`TypeError` thrown
by property access on `null`/`undefined`, `Object.entries(undefined)`,
calling `.map`/`.split` on non-functions) are modelled with `Except`.
-/

set_option linter.unusedVariables false

namespace Widget

/-- JavaScript values as handed around by the generator: the six JSON
shapes plus `undefined`.  Objects are ordered association lists, since
key insertion order is significant for the emitted output. -/
inductive Json where
  | undef : Json
  | null : Json
  | bool (b : Bool) : Json
  | num (n : Int) : Json
  | str (s : String) : Json
  | arr (elems : List Json) : Json
  | obj (fields : List (String × Json)) : Json

/-! ## ASCII character classes and the change-case `pascalCase` model

The generator imports `pascalCase` from the `change-case` npm package.
`pascalCase` splits its input into words (word boundaries: any
non-alphanumeric character, a lower-case letter or digit followed by an
upper-case letter, and an upper-case letter followed by an upper-case
letter followed by a lower-case letter), upper-cases the first character
of each word, lower-cases the rest, and joins the words with no
separator.  The definitions below model that library function for ASCII
input (the only input the repository feeds it). -/

def isLowerAZ (c : Char) : Bool := 97 ≤ c.toNat && c.toNat ≤ 122

def isUpperAZ (c : Char) : Bool := 65 ≤ c.toNat && c.toNat ≤ 90

def isDigit09 (c : Char) : Bool := 48 ≤ c.toNat && c.toNat ≤ 57

def isAlnumChar (c : Char) : Bool := isLowerAZ c || isUpperAZ c || isDigit09 c

/-- Word boundary between two adjacent alphanumeric characters `c` and `d`
(`rest` is the input after `d`): change-case splits between a lower-case
letter or digit and an upper-case letter, and between two upper-case
letters when the second starts an upper-lower pair. -/
def breakBetween (c d : Char) (rest : List Char) : Bool :=
  ((isLowerAZ c || isDigit09 c) && isUpperAZ d) ||
    (isUpperAZ c && isUpperAZ d &&
      (match rest with
       | e :: _ => isLowerAZ e
       | [] => false))

/-- Word splitter of change-case: `acc` is the reversed current word. -/
def splitWordsGo (acc : List Char) : List Char → List (List Char)
  | [] => if acc.isEmpty then [] else [acc.reverse]
  | c :: rest =>
    if !isAlnumChar c then
      (if acc.isEmpty then [] else [acc.reverse]) ++ splitWordsGo [] rest
    else
      let brk :=
        match rest with
        | d :: rest2 => isAlnumChar d && breakBetween c d rest2
        | [] => false
      if brk then ((c :: acc).reverse) :: splitWordsGo [] rest
      else splitWordsGo (c :: acc) rest

def splitWords (cs : List Char) : List (List Char) := splitWordsGo [] cs

/-- Per-word transform of change-case pascalCase: upper-case the first
character, lower-case the rest; a word after the first that starts with
a digit is prefixed with an underscore. -/
def pascalTransform (w : List Char) (i : Nat) : List Char :=
  match w with
  | [] => []
  | c :: rest =>
    if 0 < i && isDigit09 c then '_' :: c :: rest.map Char.toLower
    else Char.toUpper c :: rest.map Char.toLower

/-- Model of `pascalCase` from the change-case npm package (ASCII input). -/
def pascalCase (s : String) : String :=
  String.mk (((splitWords s.data).enum.map (fun p => pascalTransform p.2 p.1)).flatten)

/-! ## Sample-JSON pipeline: type inference (`generateTypeFromValue`) -/

/-- Test of the regular expression `^[a-zA-Z_$][a-zA-Z0-9_$]*$` used at
`codegen/src/index.ts:60` to decide whether an object key may appear
unquoted. -/
def isIdentStartChar (c : Char) : Bool :=
  isLowerAZ c || isUpperAZ c || c = '_' || c = '$'

def isIdentChar (c : Char) : Bool := isIdentStartChar c || isDigit09 c

def isIdentKey (s : String) : Bool :=
  match s.data with
  | [] => false
  | c :: rest => isIdentStartChar c && rest.all isIdentChar

mutual

/-- Model of `generateTypeFromValue` (codegen/src/index.ts lines 39-70):
infers TypeScript type text from a JavaScript value.  The `name` and
`depth` parameters are threaded exactly as in the source; neither ever
appears in the output. -/
def generateTypeFromValue : Json → String → Nat → String
  | .null, _, _ => "null"
  | .undef, _, _ => "undefined"
  | .bool _, _, _ => "boolean"
  | .num _, _, _ => "number"
  | .str _, _, _ => "string"
  | .arr [], _, _ => "any[]"
  | .arr (x :: _), name, depth =>
    generateTypeFromValue x (name ++ "Element") (depth + 1) ++ "[]"
  | .obj fs, _, depth =>
    "\x7b\n" ++ String.intercalate "\n" (genPropLines fs depth) ++ "\n\x7d"

/-- One `  name: type;` line per object entry, as built by the
`Object.entries(value).map(...)` at codegen/src/index.ts lines 58-64. -/
def genPropLines : List (String × Json) → Nat → List String
  | [], _ => []
  | (key, val) :: rest, depth =>
    ("  " ++ (if isIdentKey key then key else "\"" ++ key ++ "\"") ++ ": " ++
        generateTypeFromValue val (pascalCase key) (depth + 1) ++ ";") ::
      genPropLines rest depth

end

/-! ## Sample-JSON pipeline: key path extraction (`generateKeyTypes`) -/

/-- Entry list of `Object.entries` applied to a JavaScript array: the
indices rendered as string keys, paired with the elements. -/
def jsEnumEntries (xs : List Json) : List (String × Json) :=
  xs.enum.map (fun p => (toString p.1, p.2))

/-- Body of the inner `extractKeys` walk (codegen/src/index.ts lines
213-224) over the entry list of the current object: every key yields one
quoted full path, and the walk recurses only into values that are plain
objects (not arrays, not null). -/
def extractKeysEntries : List (String × Json) → String → List String
  | [], _ => []
  | (key, val) :: rest, currentPath =>
    let fullPath := if currentPath = "" then key else currentPath ++ "." ++ key
    ("'" ++ fullPath ++ "'") ::
      ((match val with
        | .obj fs => extractKeysEntries fs fullPath
        | _ => []) ++ extractKeysEntries rest currentPath)

/-- Model of `generateKeyTypes` (codegen/src/index.ts lines 210-228).
A root that is not a JavaScript object yields no keys; a root array is
enumerated by `Object.entries` with index keys. -/
def generateKeyTypes (json : Json) (pfx : String) : List String :=
  match json with
  | .obj fs => extractKeysEntries fs pfx
  | .arr xs => extractKeysEntries (jsEnumEntries xs) pfx
  | _ => []

/-- Specification-side count: total number of object keys at all depths
reachable without crossing into array elements. -/
def countKeys : List (String × Json) → Nat
  | [] => 0
  | (_, val) :: rest =>
    1 + (match val with
         | .obj fs => countKeys fs
         | _ => 0) + countKeys rest

/-- Modelled from the spec (refinement target for the path extractor):
depth-first pre-order walk in key insertion order, emitting the
dot-joined path of every key and descending only into non-array object
values. -/
def specPaths : List (String × Json) → String → List String
  | [], _ => []
  | (key, val) :: rest, currentPath =>
    let fullPath := if currentPath = "" then key else currentPath ++ "." ++ key
    fullPath ::
      ((match val with
        | .obj fs => specPaths fs fullPath
        | _ => []) ++ specPaths rest currentPath)

/-! ## Sample-JSON pipeline: interface synthesis (`extractInterfaces`) -/

/-- Interface name derivation at codegen/src/index.ts line 84:
`pascalCase(parentName + key)`, where `parentName` is the name already
derived for the enclosing object (empty at the root). -/
def interfaceName (parentName key : String) : String :=
  pascalCase (parentName ++ key)

/-- Body of `extractInterfaces` (codegen/src/index.ts lines 79-94) over
the entry list of the current object: an object-valued entry is promoted
to an `export interface` declaration exactly when it has more than 3 own
keys, and the walk then recurses into it; arrays and primitives are
skipped entirely. -/
def extractEntries : List (String × Json) → String → List String
  | [], _ => []
  | (key, val) :: rest, parentName =>
    (match val with
     | .obj fs =>
       (if 3 < fs.length then
          ["export interface " ++ interfaceName parentName key ++ " " ++
            generateTypeFromValue (.obj fs) (interfaceName parentName key) 0]
        else []) ++ extractEntries fs (interfaceName parentName key)
     | _ => []) ++ extractEntries rest parentName

/-- Model of `extractInterfaces` (codegen/src/index.ts lines 79-94).
A root array passes the `typeof` guard, so `Object.entries` enumerates
it with index keys; any other non-object root yields nothing. -/
def extractInterfaces (json : Json) (parentName : String) : List String :=
  match json with
  | .obj fs => extractEntries fs parentName
  | .arr xs => extractEntries (jsEnumEntries xs) parentName
  | _ => []

/-- Specification-side enumeration of every object-valued field reachable
by descending into nested objects (never into arrays), in the same
depth-first pre-order as `extractEntries`, paired with its derived name
and its own field list. -/
def objectFields : List (String × Json) → String → List (String × List (String × Json))
  | [], _ => []
  | (key, val) :: rest, parentName =>
    (match val with
     | .obj fs =>
       (interfaceName parentName key, fs) :: objectFields fs (interfaceName parentName key)
     | _ => []) ++ objectFields rest parentName

/-! ## OpenAPI pipeline: the legacy `transformSchema` front end

Model of `transformSchema(schema, openapi)` from the codegen valibot
script (the front end that walks raw OpenAPI JSON).  The `openapi`
argument is never used by the source function, so it is dropped here.
Property access `schema.x` on a JavaScript object is an association-list
lookup returning `undefined` (here: `Option.none`) when absent;
property access on `null`/`undefined` throws a `TypeError`, modelled as
`Except.error`. -/

/-- First-match association-list lookup, the model of JavaScript
property access on an object value. -/
def lookupField : List (String × Json) → String → Option Json
  | [], _ => none
  | (key, val) :: rest, k => if key = k then some val else lookupField rest k

/-- JavaScript truthiness of a value. -/
def truthy : Json → Bool
  | .undef => false
  | .null => false
  | .bool b => b
  | .num n => n != 0
  | .str s => s != ""
  | .arr _ => true
  | .obj _ => true

mutual

/-- JavaScript string interpolation of a value, as in the template
literal that renders enum members. -/
def jsToString : Json → String
  | .undef => "undefined"
  | .null => "null"
  | .bool b => if b then "true" else "false"
  | .num n => toString n
  | .str s => s
  | .arr xs => String.intercalate "," (jsArrItems xs)
  | .obj _ => "[object Object]"

/-- Array items under `Array.prototype.toString`: `null` and `undefined`
elements render as the empty string. -/
def jsArrItems : List Json → List String
  | [] => []
  | x :: rest =>
    (match x with
     | .null => ""
     | .undef => ""
     | _ => jsToString x) :: jsArrItems rest

end

/-- Value of `schema.type` when it is a string, else `none`; the source
compares `schema.type` with string literals using strict equality, which
can only succeed when the value is a string. -/
def typeTag (fs : List (String × Json)) : Option String :=
  match lookupField fs "type" with
  | some (.str s) => some s
  | _ => none

/-- Checks that a field is absent or falsy, i.e. that a guard of the form
`if (schema.k)` does not fire. -/
def fieldFalsy (fs : List (String × Json)) (k : String) : Bool :=
  match lookupField fs k with
  | none => true
  | some v => !truthy v

/-- Split of a character list at every `/`, the model of
`String.prototype.split('/')`; splitting the empty string yields one
empty segment, as in JavaScript. -/
def splitOnSlash : List Char → List (List Char)
  | [] => [[]]
  | x :: rest =>
    let r := splitOnSlash rest
    if x = '/' then [] :: r
    else (x :: r.headD []) :: r.tail

/-- Last segment of `s.split('/')` as produced by
`schema['$ref'].split('/').pop()`. -/
def jsSplitPop (s : String) : String := String.mk ((splitOnSlash s.data).getLastD [])

/-- Entries contributed by `Object.entries` on a string value of
`schema.properties`: one-character string values, each of which
transforms to the permissive validator. -/
def stringCharProps (i : Nat) : List Char → List String
  | [] => []
  | _ :: rest => (toString i ++ ": v.any()") :: stringCharProps (i + 1) rest

theorem lookupField_sizeOf {fs : List (String × Json)} {k : String} {v : Json}
    (h : lookupField fs k = some v) : sizeOf v < sizeOf fs := by
  induction fs with
  | nil => simp [lookupField] at h
  | cons hd tl ih =>
    obtain ⟨key, val⟩ := hd
    by_cases hk : key = k
    · simp [lookupField, hk] at h
      subst h
      simp only [List.cons.sizeOf_spec, Prod.mk.sizeOf_spec]
      omega
    · simp [lookupField, hk] at h
      have := ih h
      simp only [List.cons.sizeOf_spec, Prod.mk.sizeOf_spec]
      omega

theorem lookupField_getD_sizeOf (fs : List (String × Json)) (k : String) :
    sizeOf ((lookupField fs k).getD Json.undef) < sizeOf (Json.obj fs) := by
  cases h : lookupField fs k with
  | none =>
    simp only [Option.getD_none, Json.obj.sizeOf_spec]
    have : 1 ≤ sizeOf fs := by cases fs <;> simp_arith
    simp [Json.undef.sizeOf_spec]
    omega
  | some v =>
    have := lookupField_sizeOf h
    simp only [Option.getD_some, Json.obj.sizeOf_spec]
    omega

/-- Tail of the `transformSchema` guard chain after the `object`,
`array` and `enum` guards have all failed: the primitive `type` checks,
the `$ref` check, and the permissive fallback, in source order. -/
def transformRest (fs : List (String × Json)) : Except String String :=
  if typeTag fs = some "string" then .ok "v.string()"
  else if typeTag fs = some "number" then .ok "v.number()"
  else if typeTag fs = some "integer" then .ok "v.number()"
  else if typeTag fs = some "boolean" then .ok "v.boolean()"
  else
    match lookupField fs "$ref" with
    | some (.str r) =>
      if r = "" then .ok "v.any()" else .ok (jsSplitPop r)
    | some v =>
      if truthy v then .error "TypeError: schema.$ref.split is not a function"
      else .ok "v.any()"
    | none => .ok "v.any()"

mutual

/-- Model of `transformSchema` from the legacy valibot generator (the
front end that walks raw OpenAPI JSON; unnamed source, lines 61-95).
The guards are tried in source order: `type === 'object'`,
`type === 'array'`, a truthy `enum`, `type === 'string'`,
`'number'`/`'integer'`, `'boolean'`, a truthy `$ref`, and finally the
permissive `v.any()` fallback.  Shapes on which the JavaScript code
would throw a `TypeError` (property access on `null`/`undefined`,
`Object.entries` of a missing `properties`, `.map` on a non-array
`enum`, `.split` on a non-string `$ref`, recursion into missing
`items`) are `Except.error`. -/
def transformSchema : Json → Except String String
  | .null => .error "TypeError: cannot read properties of null"
  | .undef => .error "TypeError: cannot read properties of undefined"
  | .obj fs =>
    if typeTag fs = some "object" then
      match h : lookupField fs "properties" with
      | none => .error "TypeError: cannot convert undefined or null to object"
      | some .undef => .error "TypeError: cannot convert undefined or null to object"
      | some .null => .error "TypeError: cannot convert undefined or null to object"
      | some (.obj pfs) =>
        (transformProps pfs).map
          (fun ps => "v.object(\x7b " ++ String.intercalate ", " ps ++ " \x7d)")
      | some (.arr xs) =>
        (transformElems 0 xs).map
          (fun ps => "v.object(\x7b " ++ String.intercalate ", " ps ++ " \x7d)")
      | some (.str s) =>
        .ok ("v.object(\x7b " ++ String.intercalate ", " (stringCharProps 0 s.data) ++ " \x7d)")
      | some (.num _) => .ok "v.object(\x7b  \x7d)"
      | some (.bool _) => .ok "v.object(\x7b  \x7d)"
    else if typeTag fs = some "array" then
      (transformSchema ((lookupField fs "items").getD .undef)).map
        (fun e => "v.array(" ++ e ++ ")")
    else
      match lookupField fs "enum" with
      | some (.arr vs) =>
        .ok ("v.union([" ++ String.intercalate ", "
          (vs.map (fun x => "v.literal(\"" ++ jsToString x ++ "\")")) ++ "])")
      | e =>
        if (match e with | none => false | some v => truthy v) then
          .error "TypeError: schema.enum.map is not a function"
        else transformRest fs
  | _ => .ok "v.any()"
termination_by j => sizeOf j
decreasing_by
  · have h1 := lookupField_sizeOf h
    try simp only [Json.obj.sizeOf_spec] at h1
    try simp only [Json.obj.sizeOf_spec]
    omega
  · have h1 := lookupField_sizeOf h
    try simp only [Json.arr.sizeOf_spec] at h1
    try simp only [Json.obj.sizeOf_spec]
    omega
  · have h1 := lookupField_getD_sizeOf fs "items"
    try simp only [Json.obj.sizeOf_spec] at h1
    try simp only [Json.obj.sizeOf_spec]
    omega

/-- Property list of the `v.object` branch: one `key: validator` entry
per property, failing as soon as any recursive transformation fails. -/
def transformProps : List (String × Json) → Except String (List String)
  | [] => .ok []
  | (key, val) :: rest => do
    let t ← transformSchema val
    let ts ← transformProps rest
    .ok ((key ++ ": " ++ t) :: ts)
termination_by l => sizeOf l

/-- Entries of `Object.entries` on an array-valued `properties`: index
keys paired with the recursively transformed elements. -/
def transformElems (i : Nat) : List Json → Except String (List String)
  | [] => .ok []
  | x :: rest => do
    let t ← transformSchema x
    let ts ← transformElems (i + 1) rest
    .ok ((toString i ++ ": " ++ t) :: ts)
termination_by l => sizeOf l

end

/-! ## Helper lemmas -/

theorem genPropLines_eq_map (fs : List (String × Json)) (depth : Nat) :
    genPropLines fs depth =
      fs.map (fun kv =>
        "  " ++ (if isIdentKey kv.1 then kv.1 else "\"" ++ kv.1 ++ "\"") ++ ": " ++
          generateTypeFromValue kv.2 (pascalCase kv.1) (depth + 1) ++ ";") := by
  induction fs with
  | nil => rfl
  | cons hd tl ih => cases hd; simp [genPropLines, ih]

theorem extractKeysEntries_length (fs : List (String × Json)) (cur : String) :
    (extractKeysEntries fs cur).length = countKeys fs := by
  induction fs, cur using extractKeysEntries.induct with
  | case1 cur => simp [extractKeysEntries, countKeys]
  | case2 key val rest cur fullPath ih1 ih2 =>
    have hfp : fullPath = (if cur = "" then key else cur ++ "." ++ key) := rfl
    cases val <;> simp_all [extractKeysEntries, countKeys] <;> omega

theorem extractKeysEntries_eq_specPaths (fs : List (String × Json)) (cur : String) :
    extractKeysEntries fs cur = (specPaths fs cur).map (fun p => "'" ++ p ++ "'") := by
  induction fs, cur using extractKeysEntries.induct with
  | case1 cur => simp [extractKeysEntries, specPaths]
  | case2 key val rest cur fullPath ih1 ih2 =>
    have hfp : fullPath = (if cur = "" then key else cur ++ "." ++ key) := rfl
    cases val <;> simp_all [extractKeysEntries, specPaths]

theorem extractEntries_eq_filterMap (fs : List (String × Json)) (parentName : String) :
    extractEntries fs parentName =
      (objectFields fs parentName).filterMap (fun e =>
        if 3 < e.2.length then
          some ("export interface " ++ e.1 ++ " " ++ generateTypeFromValue (Json.obj e.2) e.1 0)
        else none) := by
  induction fs, parentName using extractEntries.induct with
  | case1 p => simp [extractEntries, objectFields]
  | case2 key val rest p ihv ihr =>
    cases val <;>
      simp_all [extractEntries, objectFields, List.filterMap_append, List.filterMap_cons]
    split_ifs <;> simp_all

/-! ## Claims about the sample-JSON pipeline -/

/-- C6: for every empty array value, at any nesting depth and in any
surrounding context, the inferred type text is exactly `any[]`; no
element type is inferred from the absence of elements. -/
theorem c6_empty_array_is_any_array (name : String) (depth : Nat) :
    generateTypeFromValue (Json.arr []) name depth = "any[]" := rfl

/-- C5: for every non-empty array value, the inferred element type is
computed from the first element only (the tail never appears on the
right-hand side), so an array whose first element is a string and second
is a number infers `string[]`. -/
theorem c5_first_element_wins :
    (∀ (x : Json) (xs : List Json) (name : String) (depth : Nat),
        generateTypeFromValue (Json.arr (x :: xs)) name depth =
          generateTypeFromValue x (name ++ "Element") (depth + 1) ++ "[]") ∧
      generateTypeFromValue (Json.arr [Json.str "a", Json.num 1]) "Root" 0 = "string[]" :=
  ⟨fun _ _ _ _ => rfl, rfl⟩

/-- C9 counterexample: on an undefined leaf the type inference does not
fail; it returns the type text `undefined` (codegen/src/index.ts
line 41), contradicting the claim that it fails with InvalidInputError
and never produces a result. -/
theorem c9_counterexample :
    generateTypeFromValue Json.undef "Root" 0 = "undefined" := rfl

/-- C9 amended: for every name and depth, the type inference applied to
an undefined leaf returns the type text `undefined`; no error is raised
and no InvalidInputError exists in the code. -/
theorem c9_amended (name : String) (depth : Nat) :
    generateTypeFromValue Json.undef name depth = "undefined" := rfl

/-- C10: in the emitted inline-object type text, at every nesting depth,
each field name is the bare key exactly when the key matches
`^[a-zA-Z_$][a-zA-Z0-9_$]*$`, and the key wrapped in double quotes
otherwise. -/
theorem c10_field_name_quoting :
    (∀ (fs : List (String × Json)) (name : String) (depth : Nat),
        generateTypeFromValue (Json.obj fs) name depth =
          "\x7b\n" ++
            String.intercalate "\n"
              (fs.map (fun kv =>
                "  " ++ (if isIdentKey kv.1 then kv.1 else "\"" ++ kv.1 ++ "\"") ++ ": " ++
                  generateTypeFromValue kv.2 (pascalCase kv.1) (depth + 1) ++ ";")) ++
            "\n\x7d") ∧
      generateTypeFromValue (Json.obj [("a", Json.num 1), ("my-key", Json.str "x")]) "N" 0 =
        "\x7b\n  a: number;\n  \"my-key\": string;\n\x7d" := by
  constructor
  · intro fs name depth
    rw [show generateTypeFromValue (Json.obj fs) name depth =
      "\x7b\n" ++ String.intercalate "\n" (genPropLines fs depth) ++ "\n\x7d" from rfl]
    rw [genPropLines_eq_map]
  · rfl

/-- C2: an object-valued field reachable by descending into nested
objects (never into arrays) is promoted to a named top-level interface
exactly when it has strictly more than 3 own keys: the emitted
declaration list equals the more-than-3-keys filtering of the
enumeration of all reachable object fields; in particular a 3-key object
stays inline and a 4-key object is promoted. -/
theorem c2_promotion_iff_more_than_three_keys :
    (∀ (fs : List (String × Json)) (parentName : String),
        extractEntries fs parentName =
          (objectFields fs parentName).filterMap (fun e =>
            if 3 < e.2.length then
              some ("export interface " ++ e.1 ++ " " ++
                generateTypeFromValue (Json.obj e.2) e.1 0)
            else none)) ∧
      extractInterfaces (Json.obj [("k",
          Json.obj [("a", Json.num 1), ("b", Json.num 2), ("c", Json.num 3)])]) "" = [] ∧
      extractInterfaces (Json.obj [("k",
          Json.obj [("a", Json.num 1), ("b", Json.num 2), ("c", Json.num 3),
            ("d", Json.num 4)])]) "" =
        ["export interface K \x7b\n  a: number;\n  b: number;\n  c: number;\n  d: number;\n\x7d"] := by
  refine ⟨extractEntries_eq_filterMap, ?_, ?_⟩
  · simp [extractInterfaces, extractEntries, interfaceName]
  · simp [extractInterfaces, extractEntries, interfaceName]
    rfl

/-- C1: the key path extractor emits exactly one entry per object key at
every depth reachable without descending into array elements, in
depth-first pre-order following key insertion order (it agrees with the
specification walk `specPaths` up to the quoting of each path, and its
length is the number of reachable keys); on
`\x7b"a":\x7b"b":1,"c":2\x7d,"d":[1,2,3]\x7d` it yields the paths
`a`, `a.b`, `a.c`, `d` in that order. -/
theorem c1_extract_paths :
    (∀ (fs : List (String × Json)) (cur : String),
        extractKeysEntries fs cur = (specPaths fs cur).map (fun p => "'" ++ p ++ "'") ∧
          (extractKeysEntries fs cur).length = countKeys fs) ∧
      generateKeyTypes
          (Json.obj [("a", Json.obj [("b", Json.num 1), ("c", Json.num 2)]),
            ("d", Json.arr [Json.num 1, Json.num 2, Json.num 3])]) "" =
        ["'a'", "'a.b'", "'a.c'", "'d'"] := by
  refine ⟨fun fs cur => ⟨extractKeysEntries_eq_specPaths fs cur, extractKeysEntries_length fs cur⟩, ?_⟩
  simp [generateKeyTypes, extractKeysEntries]

/-! ## Interface naming (claim C3)

The emitted name is `pascalCase(parentName + key)` where `parentName`
is itself an already pascal-cased accumulated name, so an all-lowercase
segment after the first loses its own capitalization: the whole
concatenation forms a single word for the change-case splitter. -/

/-- Checks that a string is nonempty and entirely lower-case ASCII. -/
def lowerWordB (s : String) : Bool := !s.data.isEmpty && s.data.all isLowerAZ

/-- Checks that a string starts with one upper-case ASCII letter
followed only by lower-case ASCII letters. -/
def pascalShapedB (s : String) : Bool :=
  match s.data with
  | [] => false
  | c :: rest => isUpperAZ c && rest.all isLowerAZ

theorem toLower_of_lower {c : Char} (h : isLowerAZ c = true) : c.toLower = c := by
  simp only [isLowerAZ, Bool.and_eq_true, decide_eq_true_eq] at h
  simp only [Char.toLower]
  rw [if_neg]
  omega

theorem toUpper_of_upper {c : Char} (h : isUpperAZ c = true) : c.toUpper = c := by
  simp only [isUpperAZ, Bool.and_eq_true, decide_eq_true_eq] at h
  simp only [Char.toUpper]
  rw [if_neg]
  omega

theorem map_toLower_of_lower {cs : List Char} (h : cs.all isLowerAZ = true) :
    cs.map Char.toLower = cs := by
  induction cs with
  | nil => rfl
  | cons c rest ih =>
    simp only [List.all_cons, Bool.and_eq_true] at h
    simp [toLower_of_lower h.1, ih h.2]

theorem lower_not_upper {c : Char} (h : isLowerAZ c = true) : isUpperAZ c = false := by
  simp only [isLowerAZ, Bool.and_eq_true, decide_eq_true_eq] at h
  have h90 : ¬ (c.toNat ≤ 90) := by omega
  simp [isUpperAZ, h90]

theorem lower_alnum {c : Char} (h : isLowerAZ c = true) : isAlnumChar c = true := by
  simp [isAlnumChar, h]

theorem splitWordsGo_lower {cs : List Char} (acc : List Char) (h : cs.all isLowerAZ = true) :
    splitWordsGo acc cs =
      if (acc.reverse ++ cs).isEmpty then [] else [acc.reverse ++ cs] := by
  induction cs generalizing acc with
  | nil => simp [splitWordsGo, List.isEmpty_iff]
  | cons c rest ih =>
    simp only [List.all_cons, Bool.and_eq_true] at h
    cases rest with
    | nil => simp [splitWordsGo, lower_alnum h.1, List.isEmpty_iff]
    | cons d rest2 =>
      have hd : isLowerAZ d = true := by
        have h2 := h.2
        simp only [List.all_cons, Bool.and_eq_true] at h2
        exact h2.1
      have hbrk : (isAlnumChar d && breakBetween c d rest2) = false := by
        simp [breakBetween, lower_not_upper hd]
      rw [splitWordsGo.eq_def]
      simp only [lower_alnum h.1, Bool.not_true, Bool.false_eq_true, if_false, hbrk]
      rw [ih (c :: acc) h.2]
      simp [List.append_assoc, List.isEmpty_iff]

theorem pascalCase_pascal_append_lower {p k : String}
    (hp : pascalShapedB p = true) (hk : lowerWordB k = true) :
    pascalCase (p ++ k) = p ++ k := by
  obtain ⟨c, cs, hcs⟩ : ∃ c cs, p.data = c :: cs := by
    cases hpd : p.data with
    | nil => simp [pascalShapedB, hpd] at hp
    | cons a l => exact ⟨a, l, rfl⟩
  have hc : isUpperAZ c = true ∧ cs.all isLowerAZ = true := by
    have hp2 := hp
    simp only [pascalShapedB, hcs, Bool.and_eq_true] at hp2
    exact hp2
  have hkd : k.data ≠ [] ∧ k.data.all isLowerAZ = true := by
    have hk2 := hk
    simp only [lowerWordB, Bool.and_eq_true, Bool.not_eq_true', List.isEmpty_eq_false] at hk2
    exact ⟨by simpa [List.isEmpty_iff] using hk2.1, hk2.2⟩
  have happ : (p ++ k).data = c :: (cs ++ k.data) := by
    rw [String.data_append, hcs, List.cons_append]
  have htail_all : (cs ++ k.data).all isLowerAZ = true := by
    simp [List.all_append, hc.2, hkd.2]
  have htail_ne : cs ++ k.data ≠ [] := by
    simp [List.append_eq_nil, hkd.1]
  have hsplit : splitWords ((p ++ k).data) = [c :: (cs ++ k.data)] := by
    rw [happ, splitWords, splitWordsGo.eq_def]
    have halnum : isAlnumChar c = true := by simp [isAlnumChar, hc.1]
    cases htl : cs ++ k.data with
    | nil => exact absurd htl htail_ne
    | cons d rest2 =>
      have hd : isLowerAZ d = true := by
        have ha := htail_all
        rw [htl] at ha
        simp only [List.all_cons, Bool.and_eq_true] at ha
        exact ha.1
      have hbrk : (isAlnumChar d && breakBetween c d rest2) = false := by
        simp [breakBetween, lower_not_upper hd]
      have hall2 : (d :: rest2).all isLowerAZ = true := by
        have ha := htail_all
        rw [htl] at ha
        exact ha
      simp only [halnum, Bool.not_true, Bool.false_eq_true, if_false, hbrk]
      rw [splitWordsGo_lower [c] hall2]
      simp [List.isEmpty_iff]
  have hfinal : pascalCase (p ++ k) = String.mk (c :: (cs ++ k.data)) := by
    simp only [pascalCase, hsplit, List.enum, List.enumFrom, List.map, List.flatten,
      List.append_nil, pascalTransform]
    simp [toUpper_of_upper hc.1, map_toLower_of_lower htail_all]
  rw [hfinal, ← happ]

/-- C3 counterexample: for the end-to-end input
`\x7b"widget":\x7b"window":\x7b...4 keys...\x7d\x7d\x7d` the promoted
interface for the object at path widget.window is named `Widgetwindow`,
not `WidgetWindow`: the source applies `pascalCase` to the concatenation
of the already pascal-cased parent name with the raw key, and the
all-lowercase key contributes no word boundary. -/
theorem c3_counterexample :
    extractInterfaces
        (Json.obj [("widget", Json.obj [("window",
          Json.obj [("title", Json.str "X"), ("width", Json.num 1),
            ("height", Json.num 2), ("resizable", Json.bool true)])])]) "" =
      ["export interface Widgetwindow \x7b\n  title: string;\n  width: number;\n  height: number;\n  resizable: boolean;\n\x7d"]
    ∧ interfaceName (interfaceName "" "widget") "window" ≠ "WidgetWindow" := by
  constructor
  · simp [extractInterfaces, extractEntries, interfaceName]
    rfl
  · decide

/-- C3 amended: the name of a promoted NamedInterface is derived
cumulatively, by appending each path segment to the already-derived
parent name and converting the concatenation (not each segment) to
capitalized-word form; consequently an all-lowercase segment below a
pascal-shaped parent name is appended verbatim, without its own capital
letter (widget.window yields Widgetwindow). -/
theorem c3_amended (p k : String)
    (hp : pascalShapedB p = true) (hk : lowerWordB k = true) :
    interfaceName p k = p ++ k :=
  pascalCase_pascal_append_lower hp hk

/-- C3 amended, witnessed at the path widget.window: the parent-derived
name Widget is pascal-shaped, the segment window is lower-case, and the
derived interface name is the plain concatenation Widgetwindow. -/
theorem c3_amended_witness :
    pascalShapedB "Widget" = true ∧ lowerWordB "window" = true ∧
      interfaceName "Widget" "window" = "Widget" ++ "window" :=
  ⟨by decide, by decide, c3_amended "Widget" "window" (by decide) (by decide)⟩

/-! ## Claims about the OpenAPI pipeline -/

theorem transformSchema_obj_skip_to_rest (fs : List (String × Json))
    (h1 : typeTag fs ≠ some "object") (h2 : typeTag fs ≠ some "array")
    (h7 : fieldFalsy fs "enum" = true) :
    transformSchema (Json.obj fs) = transformRest fs := by
  rw [transformSchema]
  simp only [if_neg h1, if_neg h2]
  cases he : lookupField fs "enum" with
  | none => simp
  | some v =>
    have hv : truthy v = false := by
      simp only [fieldFalsy, he, Bool.not_eq_true'] at h7
      exact h7
    cases v <;> simp_all [truthy]

/-- C8: a schema node whose `type` is neither `object` nor `array` and
whose `enum` field is an array transforms to a union with exactly one
literal validator per enum value, in declared order (the literal list is
the elementwise image of the enum list, so it has the same length). -/
theorem c8_enum_union (fs : List (String × Json)) (vs : List Json)
    (h1 : typeTag fs ≠ some "object") (h2 : typeTag fs ≠ some "array")
    (he : lookupField fs "enum" = some (Json.arr vs)) :
    transformSchema (Json.obj fs) =
        Except.ok ("v.union([" ++ String.intercalate ", "
          (vs.map (fun x => "v.literal(\"" ++ jsToString x ++ "\")")) ++ "])") ∧
      (vs.map (fun x => "v.literal(\"" ++ jsToString x ++ "\")")).length = vs.length := by
  refine ⟨?_, by simp⟩
  rw [transformSchema]
  simp only [if_neg h1, if_neg h2, he]

/-- C8 witness: the enum values active, inactive yield exactly
`v.union([v.literal("active"), v.literal("inactive")])`. -/
theorem c8_enum_union_witness :
    transformSchema (Json.obj [("enum", Json.arr [Json.str "active", Json.str "inactive"])]) =
      Except.ok "v.union([v.literal(\"active\"), v.literal(\"inactive\")])" :=
  (c8_enum_union [("enum", Json.arr [Json.str "active", Json.str "inactive"])]
      [Json.str "active", Json.str "inactive"] (by decide) (by decide) rfl).1

/-- C7: a schema node that reaches the `$ref` guard (no recognized
`type`, no truthy `enum`) with a non-empty string `$ref` transforms to
exactly the last `/`-separated segment of the reference target — a bare
identifier, never the referenced schema's body. -/
theorem c7_ref_bare_identifier (fs : List (String × Json)) (r : String)
    (h1 : typeTag fs ≠ some "object") (h2 : typeTag fs ≠ some "array")
    (h3 : typeTag fs ≠ some "string") (h4 : typeTag fs ≠ some "number")
    (h5 : typeTag fs ≠ some "integer") (h6 : typeTag fs ≠ some "boolean")
    (h7 : fieldFalsy fs "enum" = true)
    (hr : lookupField fs "$ref" = some (Json.str r)) (hne : r ≠ "") :
    transformSchema (Json.obj fs) = Except.ok (jsSplitPop r) := by
  rw [transformSchema_obj_skip_to_rest fs h1 h2 h7, transformRest]
  simp only [if_neg h3, if_neg h4, if_neg h5, if_neg h6, hr]
  simp [hne, jsSplitPop]

/-- C7 witness: a `$ref` to `#/components/schemas/Status` transforms to
the bare identifier `Status`. -/
theorem c7_ref_bare_identifier_witness :
    transformSchema (Json.obj [("$ref", Json.str "#/components/schemas/Status")]) =
      Except.ok "Status" :=
  (c7_ref_bare_identifier [("$ref", Json.str "#/components/schemas/Status")]
      "#/components/schemas/Status" (by decide) (by decide) (by decide) (by decide)
      (by decide) (by decide) (by decide) rfl (by decide)).trans rfl

/-- C4: a schema node matching none of the recognized shapes — `type`
none of object/array/string/number/integer/boolean, no truthy `enum`,
no truthy `$ref` — transforms successfully (no error) to the permissive
`v.any()` fallback. -/
theorem c4_unrecognized_falls_back (fs : List (String × Json))
    (h1 : typeTag fs ≠ some "object") (h2 : typeTag fs ≠ some "array")
    (h3 : typeTag fs ≠ some "string") (h4 : typeTag fs ≠ some "number")
    (h5 : typeTag fs ≠ some "integer") (h6 : typeTag fs ≠ some "boolean")
    (h7 : fieldFalsy fs "enum" = true) (h8 : fieldFalsy fs "$ref" = true) :
    transformSchema (Json.obj fs) = Except.ok "v.any()" := by
  rw [transformSchema_obj_skip_to_rest fs h1 h2 h7, transformRest]
  simp only [if_neg h3, if_neg h4, if_neg h5, if_neg h6]
  cases hr : lookupField fs "$ref" with
  | none => simp
  | some v =>
    have hv : truthy v = false := by
      simp only [fieldFalsy, hr, Bool.not_eq_true'] at h8
      exact h8
    cases v <;> simp_all [truthy]

/-- C4 witness: the unsupported shape `\x7b"type":"date"\x7d` transforms
successfully to `v.any()`. -/
theorem c4_unrecognized_falls_back_witness :
    transformSchema (Json.obj [("type", Json.str "date")]) = Except.ok "v.any()" :=
  c4_unrecognized_falls_back [("type", Json.str "date")] (by decide) (by decide)
    (by decide) (by decide) (by decide) (by decide) (by decide) (by decide)

end Widget
